import Mathlib

/-!
Shallow embedding of the real-time ray tracer (src/raytracer.cpp) and
verification of the claims of the specification about it.

Machine floats are modelled by real numbers; C `int` values by `ℤ`; the
mutable Mersenne-twister RNG by an explicit stream of draws threaded
through the computation.  Every definition below is translated directly
from the corresponding C++ function, keeping the source names and
control flow.
-/

namespace RayTracer

noncomputable section

/-- Vec3 from the source: a triple of floats, modelled over ℝ. -/
structure Vec3 where
  x : ℝ
  y : ℝ
  z : ℝ

/-- Vec3::operator+ -/
def Vec3.add (a b : Vec3) : Vec3 := ⟨a.x + b.x, a.y + b.y, a.z + b.z⟩

/-- Vec3::operator- -/
def Vec3.sub (a b : Vec3) : Vec3 := ⟨a.x - b.x, a.y - b.y, a.z - b.z⟩

/-- Vec3::operator* (scalar) -/
def Vec3.smul (a : Vec3) (s : ℝ) : Vec3 := ⟨a.x * s, a.y * s, a.z * s⟩

/-- Vec3::dot -/
def Vec3.dot (a b : Vec3) : ℝ := a.x * b.x + a.y * b.y + a.z * b.z

/-- Vec3::cross -/
def Vec3.cross (a b : Vec3) : Vec3 :=
  ⟨a.y * b.z - a.z * b.y, a.z * b.x - a.x * b.z, a.x * b.y - a.y * b.x⟩

/-- The length computed inside Vec3::normalize: sqrt(x*x + y*y + z*z). -/
def Vec3.length (a : Vec3) : ℝ := Real.sqrt (a.x * a.x + a.y * a.y + a.z * a.z)

/-- Vec3::normalize: scale by the reciprocal length when the length is
positive, otherwise return the zero vector (the division is only in the
positive branch). -/
def Vec3.normalize (a : Vec3) : Vec3 :=
  if a.length > 0 then a.smul (1 / a.length) else ⟨0, 0, 0⟩

/-- Vec3::reflect -/
def Vec3.reflect (d n : Vec3) : Vec3 := d.sub (n.smul (2 * d.dot n))

/-- Vec3::refract: the Snell law with the zero vector as the
total-internal-reflection sentinel. -/
def Vec3.refract (d n : Vec3) (eta : ℝ) : Vec3 :=
  let cos_i := -(d.dot n)
  let sin_t2 := eta * eta * (1 - cos_i * cos_i)
  if sin_t2 ≥ 1 then ⟨0, 0, 0⟩
  else (d.smul eta).add (n.smul (eta * cos_i - Real.sqrt (1 - sin_t2)))

/-- Color from the source: an rgb triple of floats, modelled over ℝ. -/
structure Color where
  r : ℝ
  g : ℝ
  b : ℝ

/-- Color::operator+ -/
def Color.add (a c : Color) : Color := ⟨a.r + c.r, a.g + c.g, a.b + c.b⟩

/-- Color::operator* (scalar) -/
def Color.mulS (a : Color) (s : ℝ) : Color := ⟨a.r * s, a.g * s, a.b * s⟩

/-- Color::operator* (componentwise) -/
def Color.mulC (a c : Color) : Color := ⟨a.r * c.r, a.g * c.g, a.b * c.b⟩

/-- Color::clamp: per-channel min with 1 (the source clamps only from
above). -/
def Color.clamp (a : Color) : Color := ⟨min 1 a.r, min 1 a.g, min 1 a.b⟩

/-- Texture from the source: a width×height grid of colors stored
row-major in a flat vector; width and height are C ints. -/
structure Texture where
  width : ℤ
  height : ℤ
  data : List Color

/-- The checkerboard fill of the Texture constructor: cell (x, y) is light
grey when ((x/16) + (y/16)) % 2 is nonzero, dark grey otherwise. -/
def checkerTexture (w h : ℕ) : Texture :=
  ⟨(w : ℤ), (h : ℤ),
    (List.range (h * w)).map (fun i =>
      let y := i / w
      let x := i % w
      if (x / 16 + y / 16) % 2 ≠ 0 then Color.mk 0.8 0.8 0.8
      else Color.mk 0.2 0.2 0.2)⟩

/-- Truncation toward zero: the semantics of a C cast from float to int. -/
def truncInt (r : ℝ) : ℤ := if 0 ≤ r then ⌊r⌋ else ⌈r⌉

/-- The x index computed by Texture::sample: (int)(u * width) % width,
then width added if negative (C % truncates, so the remainder can be
negative). -/
def Texture.sampleX (t : Texture) (u : ℝ) : ℤ :=
  let x := Int.tmod (truncInt (u * (t.width : ℝ))) t.width
  if x < 0 then x + t.width else x

/-- The y index computed by Texture::sample. -/
def Texture.sampleY (t : Texture) (v : ℝ) : ℤ :=
  let y := Int.tmod (truncInt (v * (t.height : ℝ))) t.height
  if y < 0 then y + t.height else y

/-- Texture::sample: wrap-around lookup data[y * width + x]. -/
def Texture.sample (t : Texture) (u v : ℝ) : Color :=
  t.data.getD ((t.sampleY v) * t.width + t.sampleX u).toNat (Color.mk 0 0 0)

/-- Ray from the source; the constructor normalizes the direction. -/
structure Ray where
  origin : Vec3
  direction : Vec3

/-- The Ray constructor: Ray(o, d) stores o and d.normalize(). -/
def Ray.make (o d : Vec3) : Ray := ⟨o, d.normalize⟩

/-- Ray::at -/
def Ray.at (r : Ray) (t : ℝ) : Vec3 := r.origin.add (r.direction.smul t)

/-- Sphere from the source: center, radius, base color, material weights,
refractive index, optional texture. -/
structure Sphere where
  center : Vec3
  radius : ℝ
  color : Color
  metallic : ℝ
  transparency : ℝ
  refractive_index : ℝ
  texture : Option Texture

/-- Sphere::intersect: solve the quadratic; a negative discriminant is a
miss (-1); otherwise the near root (-b - sqrt(disc)) / (2a) is returned
when it exceeds 0.001, else -1 (the far root is never consulted). -/
def Sphere.intersect (s : Sphere) (ray : Ray) : ℝ :=
  let oc := ray.origin.sub s.center
  let a := ray.direction.dot ray.direction
  let b := 2 * oc.dot ray.direction
  let c := oc.dot oc - s.radius * s.radius
  let discriminant := b * b - 4 * a * c
  if discriminant < 0 then -1
  else
    let t := (-b - Real.sqrt discriminant) / (2 * a)
    if t > 0.001 then t else -1

/-- Sphere::normal -/
def Sphere.normal (s : Sphere) (point : Vec3) : Vec3 :=
  (point.sub s.center).normalize

/-- The two-argument arctangent of the C library, written out by
quadrants over Real.arctan. -/
def atan2 (y x : ℝ) : ℝ :=
  if x > 0 then Real.arctan (y / x)
  else if x < 0 then
    (if y ≥ 0 then Real.arctan (y / x) + Real.pi else Real.arctan (y / x) - Real.pi)
  else
    (if y > 0 then Real.pi / 2 else if y < 0 then -(Real.pi / 2) else 0)

/-- Sphere::getUV: spherical texture coordinates from the surface
normal. -/
def Sphere.getUV (s : Sphere) (point : Vec3) : ℝ × ℝ :=
  let n := s.normal point
  (0.5 + atan2 n.z n.x / (2 * Real.pi), 0.5 - Real.arcsin n.y / Real.pi)

/-- Sphere::getColor: textured spheres sample the texture at the UV
coordinates and modulate by the base color. -/
def Sphere.getColor (s : Sphere) (point : Vec3) : Color :=
  match s.texture with
  | some tex =>
      let uv := s.getUV point
      (tex.sample uv.1 uv.2).mulC s.color
  | none => s.color

/-- The mutable mt19937 + uniform-distribution pair of the tracer,
modelled as an infinite stream of draws together with a cursor. -/
structure Rng where
  stream : ℕ → ℝ
  cursor : ℕ

/-- One call of dist(rng): yield the next draw and advance the cursor. -/
def Rng.draw (s : Rng) : ℝ × Rng := (s.stream s.cursor, ⟨s.stream, s.cursor + 1⟩)

/-- RealTimeRayTracer::sampleHemisphere: cosine-weighted direction around
the normal from two uniform draws, via an orthonormal-ish basis built
from the normal. -/
def sampleHemisphere (normal : Vec3) (s : Rng) : Vec3 × Rng :=
  let d1 := s.draw
  let d2 := d1.2.draw
  let r1 := d1.1
  let r2 := d2.1
  let cos_theta := Real.sqrt r1
  let sin_theta := Real.sqrt (1 - r1)
  let phi := 2 * Real.pi * r2
  let w := normal
  let u := ((if |w.x| > 0.1 then Vec3.mk 0 1 0 else Vec3.mk 1 0 0).cross w).normalize
  let v := w.cross u
  (((u.smul (Real.cos phi * sin_theta)).add (v.smul (Real.sin phi * sin_theta))).add
    (w.smul cos_theta), d2.2)

/-- RealTimeRayTracer::fresnel: dielectric reflectance, average of the
two polarizations; 1 on total internal reflection. -/
def fresnel (cos_i eta : ℝ) : ℝ :=
  let sin_t := eta * Real.sqrt (max 0 (1 - cos_i * cos_i))
  if sin_t ≥ 1 then 1
  else
    let cos_t := Real.sqrt (max 0 (1 - sin_t * sin_t))
    let r_perp := (eta * cos_i - cos_t) / (eta * cos_i + cos_t)
    let r_parallel := (cos_i - eta * cos_t) / (cos_i + eta * cos_t)
    (r_perp * r_perp + r_parallel * r_parallel) * 0.5

/-- The sky color literal Color(0.1f, 0.1f, 0.2f) of trace. -/
def skyColor : Color := ⟨0.1, 0.1, 0.2⟩

/-- The nearest-hit loop of RealTimeRayTracer::trace, with the running
index standing in for the sphere pointer: starting from the running
closest_t and best hit, scan the remaining spheres and keep any whose t
satisfies t > 0 and t < closest_t (strict, so an equal t never
replaces an earlier winner). -/
def findHitAux (ray : Ray) : List Sphere → ℕ → ℝ → Option (ℕ × Sphere) → ℝ × Option (ℕ × Sphere)
  | [], _, closest, best => (closest, best)
  | s :: rest, i, closest, best =>
      let t := s.intersect ray
      if t > 0 ∧ t < closest then findHitAux ray rest (i + 1) t (some (i, s))
      else findHitAux ray rest (i + 1) closest best

/-- The nearest-hit search of trace: closest_t starts at 1e30 and no
sphere is hit. -/
def findHit (spheres : List Sphere) (ray : Ray) : ℝ × Option (ℕ × Sphere) :=
  findHitAux ray spheres 0 1e30 none

/-- The shadow loop of trace: some sphere other than the one being shaded
(pointer inequality, modelled by index inequality) intersects the shadow
ray at a positive parameter; the loop breaks at the first such sphere. -/
def inShadowAux (ray : Ray) (hitIdx : ℕ) : List Sphere → ℕ → Bool
  | [], _ => false
  | s :: rest, i =>
      if i ≠ hitIdx ∧ s.intersect ray > 0 then true
      else inShadowAux ray hitIdx rest (i + 1)

/-- The shadow test of trace over the whole sphere list. -/
def inShadow (spheres : List Sphere) (ray : Ray) (hitIdx : ℕ) : Bool :=
  inShadowAux ray hitIdx spheres 0

/-- The orbiting point light of trace: (sin(time)*3, 2, cos(time)*3-3). -/
def lightPos (time : ℝ) : Vec3 := ⟨Real.sin time * 3, 2, Real.cos time * 3 - 3⟩

/-- The shadow ray of trace: origin offset from the hit point along the
normal by 0.001, aimed at the light. -/
def shadowRay (hit_point normal light_dir : Vec3) : Ray :=
  Ray.make (hit_point.add (normal.smul 0.001)) light_dir

/-- The light intensity of trace: the ambient floor 0.1 in shadow,
otherwise max(0.1, N·L). -/
def lightIntensity (shadowed : Bool) (ndotl : ℝ) : ℝ :=
  if shadowed then 0.1 else max 0.1 ndotl

/-- The reflection step of trace: when metallic > 0, trace a recursive
ray reflected about the normal and blend it in with weight metallic;
rec stands for the recursive call at depth + 1. -/
def reflectStep (ray : Ray) (normal hit_point : Vec3) (metallic : ℝ)
    (rec : Ray → Rng → Color × Rng) (p : Color × Rng) : Color × Rng :=
  if metallic > 0 then
    let reflect_ray := Ray.make (hit_point.add (normal.smul 0.001)) (ray.direction.reflect normal)
    let q := rec reflect_ray p.2
    ((p.1.mulS (1 - metallic)).add (q.1.mulS metallic), q.2)
  else p

/-- The refraction step of trace: when transparency > 0, refract through
a possibly flipped normal, and unless the refracted direction is the
zero sentinel, trace refracted and reflected rays, blend them by the
Fresnel factor, and mix the result in with weight transparency. -/
def refractStep (ray : Ray) (normal hit_point : Vec3) (transparency refractive_index : ℝ)
    (rec : Ray → Rng → Color × Rng) (p : Color × Rng) : Color × Rng :=
  if transparency > 0 then
    let cos_i := (ray.direction.smul (-1)).dot normal
    let eta := if cos_i > 0 then 1 / refractive_index else refractive_index
    let refract_normal := if cos_i > 0 then normal else normal.smul (-1)
    let refract_dir := ray.direction.refract refract_normal eta
    if refract_dir.x ≠ 0 ∨ refract_dir.y ≠ 0 ∨ refract_dir.z ≠ 0 then
      let q1 := rec (Ray.make (hit_point.sub (refract_normal.smul 0.001)) refract_dir) p.2
      let fresnel_factor := fresnel |cos_i| eta
      let q2 := rec (Ray.make (hit_point.add (normal.smul 0.001)) (ray.direction.reflect normal)) q1.2
      let transparent_color := (q2.1.mulS fresnel_factor).add (q1.1.mulS (1 - fresnel_factor))
      ((p.1.mulS (1 - transparency)).add (transparent_color.mulS transparency), q2.2)
    else p
  else p

/-- The global-illumination step of trace: only when depth < 3 and
metallic < 0.5, draw one hemisphere direction, trace one recursive ray
along it, and add giColor * materialColor * 0.1 to the running color. -/
def giStep (depth : ℕ) (metallic : ℝ) (material_color : Color) (normal hit_point : Vec3)
    (rec : Ray → Rng → Color × Rng) (p : Color × Rng) : Color × Rng :=
  if depth < 3 ∧ metallic < 0.5 then
    let d := sampleHemisphere normal p.2
    let q := rec (Ray.make (hit_point.add (normal.smul 0.001)) d.1) d.2
    (p.1.add ((q.1.mulC material_color).mulS 0.1), q.2)
  else p

/-- The shading body of trace once a hit is found: direct lighting with
shadow test, then the reflection, refraction and GI steps in source
order, and a final per-channel clamp. -/
def shadeBody (spheres : List Sphere) (time : ℝ) (ray : Ray) (depth : ℕ)
    (closest_t : ℝ) (hitIdx : ℕ) (hit_sphere : Sphere)
    (rec : Ray → Rng → Color × Rng) (rng : Rng) : Color × Rng :=
  let hit_point := ray.at closest_t
  let normal := hit_sphere.normal hit_point
  let material_color := hit_sphere.getColor hit_point
  let light_dir := ((lightPos time).sub hit_point).normalize
  let in_shadow := inShadow spheres (shadowRay hit_point normal light_dir) hitIdx
  let light_intensity := lightIntensity in_shadow (normal.dot light_dir)
  let final_color := material_color.mulS light_intensity
  let p1 := reflectStep ray normal hit_point hit_sphere.metallic rec (final_color, rng)
  let p2 := refractStep ray normal hit_point hit_sphere.transparency
    hit_sphere.refractive_index rec p1
  let p3 := giStep depth hit_sphere.metallic material_color normal hit_point rec p2
  (p3.1.clamp, p3.2)

/-- RealTimeRayTracer::trace: at depth > 8 return the sky color; find the
nearest hit; on a miss return the sky color; otherwise shade, with the
recursive call made at depth + 1. -/
def trace (spheres : List Sphere) (time : ℝ) (ray : Ray) (depth : ℕ) (rng : Rng) :
    Color × Rng :=
  if _h : depth > 8 then (skyColor, rng)
  else
    match findHit spheres ray with
    | (_, none) => (skyColor, rng)
    | (closest_t, some (hitIdx, hit_sphere)) =>
        shadeBody spheres time ray depth closest_t hitIdx hit_sphere
          (fun r s => trace spheres time r (depth + 1) s) rng
termination_by 9 - depth
decreasing_by omega

/-- One anti-aliasing sample of RealTimeRayTracer::render: jitter the
pixel coordinate by two uniform draws minus 0.5, map to [-1,1] device
coordinates with the aspect correction, build the camera ray and trace
it at depth 0. -/
def samplePixel (spheres : List Sphere) (time : ℝ) (camera_pos : Vec3)
    (width height : ℕ) (px py : ℕ) (rng : Rng) : Color × Rng :=
  let d1 := rng.draw
  let d2 := d1.2.draw
  let jitter_x := d1.1 - 0.5
  let jitter_y := d2.1 - 0.5
  let u := (((px : ℝ) + jitter_x) / (width : ℝ)) * 2 - 1
  let v0 := (((py : ℝ) + jitter_y) / (height : ℝ)) * 2 - 1
  let v := v0 * ((height : ℝ) / (width : ℝ))
  let ray_dir := (Vec3.mk u (-v) (-1)).normalize
  trace spheres time (Ray.make camera_pos ray_dir) 0 d2.2

/-- The per-pixel accumulation loop of render: sum of n anti-aliasing
samples, threading the RNG in draw order. -/
def accumPixel (spheres : List Sphere) (time : ℝ) (camera_pos : Vec3)
    (width height : ℕ) (px py : ℕ) : ℕ → Rng → Color × Rng
  | 0, rng => (⟨0, 0, 0⟩, rng)
  | n + 1, rng =>
      let acc := accumPixel spheres time camera_pos width height px py n rng
      let c := samplePixel spheres time camera_pos width height px py acc.2
      (acc.1.add c.1, c.2)

/-- The averaged per-pixel color of render: the accumulated sum scaled
by 1 / samples_per_pixel. -/
def renderPixel (spheres : List Sphere) (time : ℝ) (camera_pos : Vec3)
    (width height : ℕ) (px py : ℕ) (spp : ℕ) (rng : Rng) : Color × Rng :=
  let p := accumPixel spheres time camera_pos width height px py spp rng
  (p.1.mulS (1 / (spp : ℝ)), p.2)

/-- The byte quantization of render: the C cast (unsigned char)(c * 255),
i.e. truncation toward zero of c * 255 (in range for c in [0,1]). -/
def quantize (c : ℝ) : ℤ := truncInt (c * 255)

/-- The three bytes written to the frame buffer for one pixel. -/
def writePixel (c : Color) : ℤ × ℤ × ℤ := (quantize c.r, quantize c.g, quantize c.b)

/-- Written from the words of claim C3 (quantization as the spec states
it): round(clamp(c,0,1) * 255) with round to the nearest integer. -/
def specQuantize (c : ℝ) : ℤ := round (min 1 (max 0 c) * 255)

/-- Written from the words of claim C1 (intersection as the spec states
it): discard on a negative discriminant, otherwise return the smaller of
the two quadratic roots that exceeds 0.001, falling back to the far root
when the near root is at or below the threshold. -/
def intersectClaimed (s : Sphere) (ray : Ray) : ℝ :=
  let oc := ray.origin.sub s.center
  let a := ray.direction.dot ray.direction
  let b := 2 * oc.dot ray.direction
  let c := oc.dot oc - s.radius * s.radius
  let discriminant := b * b - 4 * a * c
  if discriminant < 0 then -1
  else
    let t1 := (-b - Real.sqrt discriminant) / (2 * a)
    let t2 := (-b + Real.sqrt discriminant) / (2 * a)
    if t1 > 0.001 then t1 else if t2 > 0.001 then t2 else -1

/-- Channel-wise nonnegativity of a color. -/
def colorNonneg (c : Color) : Prop := 0 ≤ c.r ∧ 0 ≤ c.g ∧ 0 ≤ c.b

/-- All three channels lie in the unit interval. -/
def colorIn01 (c : Color) : Prop :=
  (0 ≤ c.r ∧ c.r ≤ 1) ∧ (0 ≤ c.g ∧ c.g ≤ 1) ∧ (0 ≤ c.b ∧ c.b ≤ 1)

/-- The data-model invariants of the specification for every sphere of a
scene: nonnegative base color, metallic and transparency weights in
[0,1], nonnegative refractive index, and nonnegative texture texels. -/
def SceneOK (spheres : List Sphere) : Prop :=
  ∀ s ∈ spheres, colorNonneg s.color ∧
    (0 ≤ s.metallic ∧ s.metallic ≤ 1) ∧
    (0 ≤ s.transparency ∧ s.transparency ≤ 1) ∧
    0 ≤ s.refractive_index ∧
    (∀ t, s.texture = some t → ∀ c ∈ t.data, colorNonneg c)

/-- The quadratic coefficient a of Sphere::intersect. -/
def quadA (ray : Ray) : ℝ := ray.direction.dot ray.direction

/-- The quadratic coefficient b of Sphere::intersect. -/
def quadB (s : Sphere) (ray : Ray) : ℝ := 2 * (ray.origin.sub s.center).dot ray.direction

/-- The quadratic coefficient c of Sphere::intersect. -/
def quadC (s : Sphere) (ray : Ray) : ℝ :=
  (ray.origin.sub s.center).dot (ray.origin.sub s.center) - s.radius * s.radius

/-- The discriminant of Sphere::intersect. -/
def quadDisc (s : Sphere) (ray : Ray) : ℝ :=
  quadB s ray * quadB s ray - 4 * quadA ray * quadC s ray

/-- The near quadratic root computed by Sphere::intersect. -/
def nearRoot (s : Sphere) (ray : Ray) : ℝ :=
  (-quadB s ray - Real.sqrt (quadDisc s ray)) / (2 * quadA ray)

/-- The far quadratic root, which Sphere::intersect never computes. -/
def farRoot (s : Sphere) (ray : Ray) : ℝ :=
  (-quadB s ray + Real.sqrt (quadDisc s ray)) / (2 * quadA ray)

/-- A unit sphere at the origin: a ray starting at its center sees the
far surface at parameter 1 but the near root at parameter -1. -/
def unitSphereAtOrigin : Sphere := ⟨⟨0, 0, 0⟩, 1, ⟨1, 1, 1⟩, 0, 0, 1, none⟩

/-- A ray that starts at the center of unitSphereAtOrigin. -/
def insideRay : Ray := Ray.make ⟨0, 0, 0⟩ ⟨0, 0, 1⟩

/-- A sphere one unit wide, five units in front of the origin. -/
def frontSphere : Sphere := ⟨⟨0, 0, -5⟩, 1, ⟨1, 1, 1⟩, 0, 0, 1, none⟩

/-- A ray from the origin aimed down the negative z axis. -/
def frontRay : Ray := Ray.make ⟨0, 0, 0⟩ ⟨0, 0, -1⟩

/-- Sphere::intersect written with the named quadratic pieces. -/
lemma intersect_def (s : Sphere) (ray : Ray) :
    s.intersect ray =
      if quadDisc s ray < 0 then -1
      else if nearRoot s ray > 0.001 then nearRoot s ray else -1 := rfl

lemma sqrt_four : Real.sqrt 4 = 2 := by
  rw [show (4 : ℝ) = 2 ^ 2 by norm_num, Real.sqrt_sq (by norm_num : (0 : ℝ) ≤ 2)]

lemma sqrt_twentyfive : Real.sqrt 25 = 5 := by
  rw [show (25 : ℝ) = 5 ^ 2 by norm_num, Real.sqrt_sq (by norm_num : (0 : ℝ) ≤ 5)]

/-- C9 (confirmed): normalize returns the vector scaled by the reciprocal
of its length when the length is positive, and the zero vector when the
length is zero; the dividing branch is only taken when the length is
positive. -/
theorem normalize_cases (v : Vec3) :
    (0 < v.length → v.normalize = v.smul (1 / v.length)) ∧
    (v.length = 0 → v.normalize = ⟨0, 0, 0⟩) := by
  constructor
  · intro h
    simp only [Vec3.normalize]
    rw [if_pos h]
  · intro h
    simp only [Vec3.normalize]
    rw [if_neg (by rw [h]; exact lt_irrefl 0)]

/-- Witness for C9 at the vector (3, 4, 0) of length 5. -/
theorem normalize_cases_witness :
    Vec3.normalize ⟨3, 4, 0⟩ = Vec3.smul ⟨3, 4, 0⟩ (1 / Vec3.length ⟨3, 4, 0⟩) :=
  (normalize_cases ⟨3, 4, 0⟩).1 (by
    simp only [Vec3.length]
    rw [show (3 : ℝ) * 3 + 4 * 4 + 0 * 0 = 25 by norm_num]
    exact Real.sqrt_pos.mpr (by norm_num))

/-- Vec3::refract with the condition and the transmitted direction spelled
out in terms of d·n. -/
lemma refract_eq (d n : Vec3) (eta : ℝ) :
    d.refract n eta =
      if 1 ≤ eta * eta * (1 - d.dot n * d.dot n) then ⟨0, 0, 0⟩
      else (d.smul eta).add
        (n.smul (eta * -(d.dot n) - Real.sqrt (1 - eta * eta * (1 - d.dot n * d.dot n)))) := by
  simp only [Vec3.refract, ge_iff_le]
  rw [show eta * eta * (1 - -(d.dot n) * -(d.dot n)) = eta * eta * (1 - d.dot n * d.dot n) by
    ring]

/-- C5 (confirmed): for a unit normal n, refract returns the zero-vector
sentinel exactly when the transmitted sine-squared eta^2 (1 - (d·n)^2) is
at least 1, and otherwise returns the Snell direction
d eta + n (eta cos_i - sqrt(1 - sin_t2)) with cos_i = -(d·n). -/
theorem refract_tir_iff (d n : Vec3) (eta : ℝ) (hn : n.dot n = 1) :
    (d.refract n eta = ⟨0, 0, 0⟩ ↔ 1 ≤ eta * eta * (1 - d.dot n * d.dot n)) ∧
    (eta * eta * (1 - d.dot n * d.dot n) < 1 →
      d.refract n eta = (d.smul eta).add
        (n.smul (eta * -(d.dot n) - Real.sqrt (1 - eta * eta * (1 - d.dot n * d.dot n))))) := by
  constructor
  · constructor
    · intro h0
      by_contra hlt
      push_neg at hlt
      rw [refract_eq, if_neg (not_le.mpr hlt)] at h0
      have hdot : (((d.smul eta).add
          (n.smul (eta * -(d.dot n) -
            Real.sqrt (1 - eta * eta * (1 - d.dot n * d.dot n))))).dot n) = 0 := by
        rw [h0]; simp [Vec3.dot]
      have hexp : (((d.smul eta).add
          (n.smul (eta * -(d.dot n) -
            Real.sqrt (1 - eta * eta * (1 - d.dot n * d.dot n))))).dot n) =
          eta * (d.dot n) + (eta * -(d.dot n) -
            Real.sqrt (1 - eta * eta * (1 - d.dot n * d.dot n))) * (n.dot n) := by
        simp only [Vec3.dot, Vec3.add, Vec3.smul]
        ring
      rw [hexp, hn] at hdot
      have hpos : 0 < Real.sqrt (1 - eta * eta * (1 - d.dot n * d.dot n)) :=
        Real.sqrt_pos.mpr (by linarith)
      nlinarith [hdot, hpos]
    · intro hge
      rw [refract_eq, if_pos hge]
  · intro hlt
    rw [refract_eq, if_neg (not_le.mpr hlt)]

/-- Witness for C5 at d = (1, 0, 0), n = (0, 0, 1), eta = 2, where the
transmitted sine-squared is 4 and total internal reflection occurs. -/
theorem refract_tir_iff_witness :
    Vec3.refract ⟨1, 0, 0⟩ ⟨0, 0, 1⟩ 2 = ⟨0, 0, 0⟩ :=
  (refract_tir_iff ⟨1, 0, 0⟩ ⟨0, 0, 1⟩ 2 (by norm_num [Vec3.dot])).1.mpr
    (by norm_num [Vec3.dot])

/-- C1 (corrected, amended part): Sphere::intersect discards the sphere
when the discriminant is negative; otherwise it returns the near root
(-b - sqrt(disc)) / (2a) when that root exceeds 0.001 and reports a miss
(-1) otherwise, never falling back to the far root; the near root is a
genuine root of the quadratic and is the smaller of the two roots when
a is positive. -/
theorem intersect_near_root_only (s : Sphere) (ray : Ray) :
    (quadDisc s ray < 0 → s.intersect ray = -1) ∧
    (0 ≤ quadDisc s ray →
      s.intersect ray = if nearRoot s ray > 0.001 then nearRoot s ray else -1) ∧
    (0 ≤ quadDisc s ray → quadA ray ≠ 0 →
      quadA ray * nearRoot s ray * nearRoot s ray +
        quadB s ray * nearRoot s ray + quadC s ray = 0) ∧
    (0 ≤ quadDisc s ray → 0 < quadA ray → nearRoot s ray ≤ farRoot s ray) := by
  refine ⟨fun h => ?_, fun h => ?_, fun h ha => ?_, fun h ha => ?_⟩
  · rw [intersect_def, if_pos h]
  · rw [intersect_def, if_neg (not_lt.mpr h)]
  · have hs : Real.sqrt (quadDisc s ray) * Real.sqrt (quadDisc s ray) =
        quadB s ray * quadB s ray - 4 * quadA ray * quadC s ray := by
      rw [Real.mul_self_sqrt h]; rfl
    unfold nearRoot
    field_simp
    linear_combination (2 * quadA ray * quadA ray) * hs
  · unfold nearRoot farRoot
    have h2a : 0 < 2 * quadA ray := by linarith
    have hnum : -quadB s ray - Real.sqrt (quadDisc s ray) ≤
        -quadB s ray + Real.sqrt (quadDisc s ray) := by
      have := Real.sqrt_nonneg (quadDisc s ray)
      linarith
    exact (div_le_div_iff_of_pos_right h2a).mpr hnum

lemma length_eq_one {v : Vec3} (hv : v.x * v.x + v.y * v.y + v.z * v.z = 1) :
    v.length = 1 := by
  simp only [Vec3.length, hv, Real.sqrt_one]

lemma normalize_unit {v : Vec3} (hv : v.x * v.x + v.y * v.y + v.z * v.z = 1) :
    v.normalize = v := by
  simp only [Vec3.normalize, length_eq_one hv]
  rw [if_pos one_pos]
  cases v
  simp [Vec3.smul]

lemma insideRay_eq : insideRay = ⟨⟨0, 0, 0⟩, ⟨0, 0, 1⟩⟩ := by
  unfold insideRay Ray.make
  rw [normalize_unit (by norm_num)]

lemma inside_quadA : quadA insideRay = 1 := by
  rw [insideRay_eq]; simp [quadA, Vec3.dot]

lemma inside_quadB : quadB unitSphereAtOrigin insideRay = 0 := by
  rw [insideRay_eq]; simp [quadB, Vec3.dot, Vec3.sub, unitSphereAtOrigin]

lemma inside_quadC : quadC unitSphereAtOrigin insideRay = -1 := by
  rw [insideRay_eq]; simp [quadC, Vec3.dot, Vec3.sub, unitSphereAtOrigin]

lemma inside_quadDisc : quadDisc unitSphereAtOrigin insideRay = 4 := by
  rw [quadDisc, inside_quadA, inside_quadB, inside_quadC]; norm_num

lemma inside_nearRoot : nearRoot unitSphereAtOrigin insideRay = -1 := by
  rw [nearRoot, inside_quadA, inside_quadB, inside_quadDisc, sqrt_four]; norm_num

lemma inside_farRoot : farRoot unitSphereAtOrigin insideRay = 1 := by
  rw [farRoot, inside_quadA, inside_quadB, inside_quadDisc, sqrt_four]; norm_num

/-- The intersection the claim describes, written with the named
quadratic pieces. -/
lemma intersectClaimed_def (s : Sphere) (ray : Ray) :
    intersectClaimed s ray =
      if quadDisc s ray < 0 then -1
      else if nearRoot s ray > 0.001 then nearRoot s ray
      else if farRoot s ray > 0.001 then farRoot s ray else -1 := rfl

/-- C1 counterexample: for a ray originating at the center of a unit
sphere the far root is 1, well beyond the epsilon, yet Sphere::intersect
reports a miss (-1) because the near root -1 fails the threshold; the
behavior the claim describes would return the far root 1. -/
theorem intersect_inside_counterexample :
    Sphere.intersect unitSphereAtOrigin insideRay = -1 ∧
    0.001 < farRoot unitSphereAtOrigin insideRay ∧
    intersectClaimed unitSphereAtOrigin insideRay = farRoot unitSphereAtOrigin insideRay ∧
    Sphere.intersect unitSphereAtOrigin insideRay ≠
      intersectClaimed unitSphereAtOrigin insideRay := by
  have hmiss : Sphere.intersect unitSphereAtOrigin insideRay = -1 := by
    rw [intersect_def, inside_quadDisc, inside_nearRoot]
    norm_num
  have hfar : intersectClaimed unitSphereAtOrigin insideRay = 1 := by
    rw [intersectClaimed_def, inside_quadDisc, inside_nearRoot, inside_farRoot]
    norm_num
  refine ⟨hmiss, ?_, ?_, ?_⟩
  · rw [inside_farRoot]; norm_num
  · rw [hfar, inside_farRoot]
  · rw [hmiss, hfar]; norm_num

/-- Witness for the amended C1 theorem at the inside ray, whose
discriminant 4 is nonnegative. -/
theorem intersect_near_root_only_witness :
    Sphere.intersect unitSphereAtOrigin insideRay =
      if nearRoot unitSphereAtOrigin insideRay > 0.001 then
        nearRoot unitSphereAtOrigin insideRay
      else -1 :=
  (intersect_near_root_only unitSphereAtOrigin insideRay).2.1
    (by rw [inside_quadDisc]; norm_num)

/-- C3 (corrected, amended part): the byte written for a channel value c
in [0,1] is the truncation of c * 255 toward zero, which equals the
floor of c * 255 and lies in [0, 255]. -/
theorem quantize_floor (c : ℝ) (h0 : 0 ≤ c) (h1 : c ≤ 1) :
    quantize c = ⌊c * 255⌋ ∧ 0 ≤ quantize c ∧ quantize c ≤ 255 := by
  have hc : 0 ≤ c * 255 := by positivity
  have hq : quantize c = ⌊c * 255⌋ := by simp [quantize, truncInt, hc]
  refine ⟨hq, ?_, ?_⟩
  · rw [hq]; exact Int.floor_nonneg.mpr hc
  · rw [hq]
    have h255 : c * 255 ≤ 255 := by nlinarith
    calc ⌊c * 255⌋ ≤ ⌊(255 : ℝ)⌋ := Int.floor_le_floor h255
    _ = 255 := by norm_num

/-- Witness for the amended C3 theorem at channel value 1/2. -/
theorem quantize_floor_witness :
    quantize (1 / 2) = ⌊(1 / 2 : ℝ) * 255⌋ ∧ 0 ≤ quantize (1 / 2) ∧
      quantize (1 / 2) ≤ 255 :=
  quantize_floor (1 / 2) (by norm_num) (by norm_num)

/-- C3 counterexample: at channel value 1/500 (in [0,1], so the clamp is
the identity) the buffer byte is trunc(0.51) = 0, but the claimed
round(clamp(c,0,1) * 255) is 1. -/
theorem quantize_round_counterexample :
    quantize (1 / 500) = 0 ∧ specQuantize (1 / 500) = 1 ∧
    quantize (1 / 500) ≠ specQuantize (1 / 500) := by
  have h1 : quantize (1 / 500) = 0 := by
    have hc : (0 : ℝ) ≤ (1 / 500 : ℝ) * 255 := by norm_num
    simp only [quantize, truncInt, if_pos hc]
    rw [Int.floor_eq_zero_iff.mpr]
    constructor <;> norm_num
  have h2 : specQuantize (1 / 500) = 1 := by
    have hmax : max (0 : ℝ) (1 / 500) = 1 / 500 := by norm_num
    have hmin : min (1 : ℝ) (1 / 500) = 1 / 500 := by norm_num
    simp only [specQuantize, hmax, hmin]
    rw [round_eq]
    rw [show (1 / 500 : ℝ) * 255 + 1 / 2 = 101 / 100 by norm_num]
    rw [Int.floor_eq_iff]
    constructor <;> norm_num
  exact ⟨h1, h2, by rw [h1, h2]; norm_num⟩

/-- C4 (confirmed): whenever the recursion depth exceeds the cap 8, trace
returns exactly the sky color, untouched RNG included, for every scene. -/
theorem trace_depth_cap (spheres : List Sphere) (time : ℝ) (ray : Ray) (depth : ℕ)
    (rng : Rng) (h : 8 < depth) : trace spheres time ray depth rng = (skyColor, rng) := by
  rw [trace]
  rw [dif_pos h]

/-- The C truncating remainder of any int by a positive int exceeds the
negated modulus. -/
lemma neg_lt_tmod (a : ℤ) {b : ℤ} (hb : 0 < b) : -b < Int.tmod a b := by
  rcases a with m | m
  · have h0 : (0 : ℤ) ≤ Int.tmod (Int.ofNat m) b :=
      Int.tmod_nonneg b (Int.ofNat_nonneg m)
    omega
  · lift b to ℕ using hb.le with n
    have hn : 0 < n := by exact_mod_cast hb
    have hdef : Int.tmod (Int.negSucc m) (n : ℤ) = -(((m + 1) % n : ℕ) : ℤ) := by
      simp [Int.tmod]
    rw [hdef]
    have := Nat.mod_lt (m + 1) hn
    omega

lemma sampleX_bounds (t : Texture) (u : ℝ) (hw : 0 < t.width) :
    0 ≤ t.sampleX u ∧ t.sampleX u < t.width := by
  unfold Texture.sampleX
  have h1 : Int.tmod (truncInt (u * (t.width : ℝ))) t.width < t.width :=
    Int.tmod_lt_of_pos _ hw
  have h2 : -t.width < Int.tmod (truncInt (u * (t.width : ℝ))) t.width :=
    neg_lt_tmod _ hw
  by_cases hneg : Int.tmod (truncInt (u * (t.width : ℝ))) t.width < 0
  · rw [if_pos hneg]; omega
  · rw [if_neg hneg]; omega

lemma sampleY_bounds (t : Texture) (v : ℝ) (hh : 0 < t.height) :
    0 ≤ t.sampleY v ∧ t.sampleY v < t.height := by
  unfold Texture.sampleY
  have h1 : Int.tmod (truncInt (v * (t.height : ℝ))) t.height < t.height :=
    Int.tmod_lt_of_pos _ hh
  have h2 : -t.height < Int.tmod (truncInt (v * (t.height : ℝ))) t.height :=
    neg_lt_tmod _ hh
  by_cases hneg : Int.tmod (truncInt (v * (t.height : ℝ))) t.height < 0
  · rw [if_pos hneg]; omega
  · rw [if_neg hneg]; omega

/-- C10 (confirmed): for positive texture dimensions, the x and y indices
Texture::sample computes are wrapped into [0, width) and [0, height)
(negative truncated remainders are fixed up by adding the modulus), so
for a data vector of size width * height the access data[y*width+x] is
in bounds — for every real u and v, in particular for the [0,1] range of
the sphere UV mapping. -/
theorem sample_access_in_bounds (t : Texture) (u v : ℝ)
    (hw : 0 < t.width) (hh : 0 < t.height)
    (hd : t.data.length = (t.width * t.height).toNat) :
    0 ≤ t.sampleX u ∧ t.sampleX u < t.width ∧
    0 ≤ t.sampleY v ∧ t.sampleY v < t.height ∧
    (t.sampleY v * t.width + t.sampleX u).toNat < t.data.length := by
  obtain ⟨hx0, hx1⟩ := sampleX_bounds t u hw
  obtain ⟨hy0, hy1⟩ := sampleY_bounds t v hh
  refine ⟨hx0, hx1, hy0, hy1, ?_⟩
  have hyw : t.sampleY v * t.width ≤ (t.height - 1) * t.width :=
    mul_le_mul_of_nonneg_right (by omega) (by omega)
  have hidx : t.sampleY v * t.width + t.sampleX u < t.width * t.height := by
    nlinarith
  have hge : 0 ≤ t.sampleY v * t.width := mul_nonneg hy0 hw.le
  omega

/-- Witness for C10 on the 64x64 checkerboard texture at out-of-range
UV coordinates u = 2, v = -3, which the wrap-around still maps in
bounds. -/
theorem sample_access_in_bounds_witness :
    0 ≤ (checkerTexture 64 64).sampleX 2 ∧
    (checkerTexture 64 64).sampleX 2 < (checkerTexture 64 64).width ∧
    0 ≤ (checkerTexture 64 64).sampleY (-3) ∧
    (checkerTexture 64 64).sampleY (-3) < (checkerTexture 64 64).height ∧
    ((checkerTexture 64 64).sampleY (-3) * (checkerTexture 64 64).width +
      (checkerTexture 64 64).sampleX 2).toNat < (checkerTexture 64 64).data.length :=
  sample_access_in_bounds (checkerTexture 64 64) 2 (-3)
    (by norm_num [checkerTexture]) (by norm_num [checkerTexture])
    (by simp [checkerTexture])

/-- Witness for C4 at depth 9 over the empty scene. -/
theorem trace_depth_cap_witness :
    trace [] 0 (Ray.make ⟨0, 0, 0⟩ ⟨0, 0, 1⟩) 9 ⟨fun _ => 0, 0⟩ =
      (skyColor, ⟨fun _ => 0, 0⟩) :=
  trace_depth_cap [] 0 (Ray.make ⟨0, 0, 0⟩ ⟨0, 0, 1⟩) 9 ⟨fun _ => 0, 0⟩ (by norm_num)

/-- C8 (confirmed): the global-illumination term is added exactly when
depth < 3 and the metallic weight is below 0.5; in that case one
recursive ray is traced along the sampled cosine-weighted hemisphere
direction and giColor * materialColor * 0.1 is added to the running
color (not blended); otherwise the color and RNG pass through this step
unchanged. -/
theorem gi_step_spec (depth : ℕ) (metallic : ℝ) (material_color : Color)
    (normal hit_point : Vec3) (rec : Ray → Rng → Color × Rng) (c : Color) (s : Rng) :
    (¬(depth < 3 ∧ metallic < 0.5) →
      giStep depth metallic material_color normal hit_point rec (c, s) = (c, s)) ∧
    (depth < 3 → metallic < 0.5 →
      giStep depth metallic material_color normal hit_point rec (c, s) =
        (c.add (((rec (Ray.make (hit_point.add (normal.smul 0.001))
            (sampleHemisphere normal s).1) (sampleHemisphere normal s).2).1.mulC
              material_color).mulS 0.1),
         (rec (Ray.make (hit_point.add (normal.smul 0.001))
            (sampleHemisphere normal s).1) (sampleHemisphere normal s).2).2)) := by
  constructor
  · intro h
    simp only [giStep]
    rw [if_neg h]
  · intro h1 h2
    simp only [giStep]
    rw [if_pos ⟨h1, h2⟩]

/-- Witness for C8 at depth 0, metallic 0, over a recursive call that
returns black. -/
theorem gi_step_spec_witness :
    giStep 0 0 ⟨1, 1, 1⟩ ⟨0, 1, 0⟩ ⟨0, 0, 0⟩ (fun _ s => (⟨0, 0, 0⟩, s))
        (⟨0, 0, 0⟩, ⟨fun _ => 0, 0⟩) =
      ((⟨0, 0, 0⟩ : Color).add ((((⟨0, 0, 0⟩ : Color)).mulC ⟨1, 1, 1⟩).mulS 0.1),
        (sampleHemisphere ⟨0, 1, 0⟩ ⟨fun _ => 0, 0⟩).2) :=
  (gi_step_spec 0 0 ⟨1, 1, 1⟩ ⟨0, 1, 0⟩ ⟨0, 0, 0⟩ (fun _ s => (⟨0, 0, 0⟩, s))
    ⟨0, 0, 0⟩ ⟨fun _ => 0, 0⟩).2 (by norm_num) (by norm_num)

/-- The shadow loop over the tail of the scene list reports a shadow
exactly when some sphere at a running index other than the shaded one
intersects the shadow ray at a positive parameter. -/
lemma inShadowAux_iff (ray : Ray) (hitIdx : ℕ) :
    ∀ (l : List Sphere) (i : ℕ),
      inShadowAux ray hitIdx l i = true ↔
        ∃ k, ∃ hk : k < l.length, (i + k) ≠ hitIdx ∧ (l.get ⟨k, hk⟩).intersect ray > 0 := by
  intro l
  induction l with
  | nil =>
      intro i
      simp [inShadowAux]
  | cons s rest ih =>
      intro i
      simp only [inShadowAux]
      by_cases hc : i ≠ hitIdx ∧ s.intersect ray > 0
      · rw [if_pos hc]
        simp only [true_iff]
        exact ⟨0, by simp, by simpa using hc.1, by simpa using hc.2⟩
      · rw [if_neg hc]
        rw [ih (i + 1)]
        constructor
        · rintro ⟨k, hk, hne, hint⟩
          refine ⟨k + 1, by simpa using Nat.succ_lt_succ hk, ?_, ?_⟩
          · omega
          · simpa using hint
        · rintro ⟨k, hk, hne, hint⟩
          cases k with
          | zero =>
              exact absurd ⟨by simpa using hne, by simpa using hint⟩ hc
          | succ k =>
              refine ⟨k, by simpa using Nat.lt_of_succ_lt_succ hk, by omega, ?_⟩
              simpa using hint

/-- C7 (confirmed): at a hit the shadow ray starts at the hit point
offset along the normal by 0.001 and aims at the light; the point is in
shadow exactly when some sphere other than the shaded one (index
inequality, the pointer test of the source) intersects that ray at a
positive parameter; the light intensity that multiplies the resolved
material color is the ambient floor 0.1 in shadow and max(0.1, N·L)
otherwise. -/
theorem shadow_lighting_spec (spheres : List Sphere) (time : ℝ)
    (hit_point normal : Vec3) (hitIdx : ℕ) :
    (shadowRay hit_point normal (((lightPos time).sub hit_point).normalize)).origin =
      hit_point.add (normal.smul 0.001) ∧
    (inShadow spheres
        (shadowRay hit_point normal (((lightPos time).sub hit_point).normalize)) hitIdx =
          true ↔
      ∃ k, ∃ hk : k < spheres.length, k ≠ hitIdx ∧
        (spheres.get ⟨k, hk⟩).intersect
          (shadowRay hit_point normal (((lightPos time).sub hit_point).normalize)) > 0) ∧
    (∀ sh : Bool, ∀ ndotl : ℝ,
      (sh = true → lightIntensity sh ndotl = 0.1) ∧
      (sh = false → lightIntensity sh ndotl = max 0.1 ndotl)) := by
  refine ⟨rfl, ?_, ?_⟩
  · rw [inShadow, inShadowAux_iff]
    simp
  · intro sh ndotl
    constructor
    · intro h; rw [h]; rfl
    · intro h; rw [h]; rfl

/-- Witness for C7 over a one-sphere scene shaded at index 0, which can
never shadow itself. -/
theorem shadow_lighting_spec_witness :
    (shadowRay ⟨0, 0, -4⟩ ⟨0, 0, 1⟩
        (((lightPos 0).sub ⟨0, 0, -4⟩).normalize)).origin =
      Vec3.add ⟨0, 0, -4⟩ (Vec3.smul ⟨0, 0, 1⟩ 0.001) ∧
    (inShadow [unitSphereAtOrigin]
        (shadowRay ⟨0, 0, -4⟩ ⟨0, 0, 1⟩ (((lightPos 0).sub ⟨0, 0, -4⟩).normalize)) 0 =
          true ↔
      ∃ k, ∃ hk : k < [unitSphereAtOrigin].length, k ≠ 0 ∧
        ([unitSphereAtOrigin].get ⟨k, hk⟩).intersect
          (shadowRay ⟨0, 0, -4⟩ ⟨0, 0, 1⟩
            (((lightPos 0).sub ⟨0, 0, -4⟩).normalize)) > 0) ∧
    (∀ sh : Bool, ∀ ndotl : ℝ,
      (sh = true → lightIntensity sh ndotl = 0.1) ∧
      (sh = false → lightIntensity sh ndotl = max 0.1 ndotl)) :=
  shadow_lighting_spec [unitSphereAtOrigin] 0 ⟨0, 0, -4⟩ ⟨0, 0, 1⟩ 0

/-- Splitting the nearest-hit loop over an append: the suffix continues
from the state the prefix produced, with the running index advanced. -/
lemma findHitAux_append (ray : Ray) (l2 : List Sphere) (l1 : List Sphere) :
    ∀ (i : ℕ) (c : ℝ) (b : Option (ℕ × Sphere)),
      findHitAux ray (l1 ++ l2) i c b =
        findHitAux ray l2 (i + l1.length) (findHitAux ray l1 i c b).1
          (findHitAux ray l1 i c b).2 := by
  induction l1 with
  | nil =>
      intro i c b
      simp [findHitAux]
  | cons s rest ih =>
      intro i c b
      simp only [List.cons_append, findHitAux, List.length_cons, List.append_eq]
      by_cases hc : s.intersect ray > 0 ∧ s.intersect ray < c
      · rw [if_pos hc, if_pos hc, ih]
        rw [show i + 1 + rest.length = i + (rest.length + 1) from by omega]
      · rw [if_neg hc, if_neg hc, ih]
        rw [show i + 1 + rest.length = i + (rest.length + 1) from by omega]

/-- The running closest parameter never increases along the loop. -/
lemma findHitAux_fst_le (ray : Ray) :
    ∀ (l : List Sphere) (i : ℕ) (c : ℝ) (b : Option (ℕ × Sphere)),
      (findHitAux ray l i c b).1 ≤ c := by
  intro l
  induction l with
  | nil =>
      intro i c b
      simp [findHitAux]
  | cons s rest ih =>
      intro i c b
      simp only [findHitAux]
      by_cases hc : s.intersect ray > 0 ∧ s.intersect ray < c
      · rw [if_pos hc]
        exact (ih _ _ _).trans hc.2.le
      · rw [if_neg hc]
        exact ih _ _ _

/-- After scanning past a sphere with a positive hit parameter t, the
running closest parameter is at most t. -/
lemma findHitAux_fst_le_of_mem (ray : Ray) {t : ℝ} (ht : 0 < t) :
    ∀ (l : List Sphere), ∀ s0 ∈ l, s0.intersect ray = t →
      ∀ (i : ℕ) (c : ℝ) (b : Option (ℕ × Sphere)), (findHitAux ray l i c b).1 ≤ t := by
  intro l
  induction l with
  | nil =>
      intro s0 h
      exact absurd h (List.not_mem_nil s0)
  | cons s rest ih =>
      intro s0 hmem hs0 i c b
      simp only [findHitAux]
      rcases List.mem_cons.mp hmem with rfl | hmem2
      · by_cases hc : s0.intersect ray > 0 ∧ s0.intersect ray < c
        · rw [if_pos hc]
          exact (findHitAux_fst_le ray rest _ _ _).trans (le_of_eq hs0)
        · rw [if_neg hc]
          have hcle : c ≤ t := by
            by_contra hgt
            push_neg at hgt
            exact hc ⟨by rw [hs0]; exact ht, by rw [hs0]; exact hgt⟩
          exact (findHitAux_fst_le ray rest _ _ _).trans hcle
      · by_cases hc : s.intersect ray > 0 ∧ s.intersect ray < c
        · rw [if_pos hc]
          exact ih s0 hmem2 hs0 _ _ _
        · rw [if_neg hc]
          exact ih s0 hmem2 hs0 _ _ _

/-- Any best hit the loop reports either came in as the initial best or
was recorded at a running index within the scanned range. -/
lemma findHitAux_snd_src (ray : Ray) :
    ∀ (l : List Sphere) (i : ℕ) (c : ℝ) (b : Option (ℕ × Sphere)) (p : ℕ × Sphere),
      (findHitAux ray l i c b).2 = some p →
        b = some p ∨ (i ≤ p.1 ∧ p.1 < i + l.length) := by
  intro l
  induction l with
  | nil =>
      intro i c b p hp
      simp only [findHitAux] at hp
      exact Or.inl hp
  | cons s rest ih =>
      intro i c b p hp
      simp only [findHitAux] at hp
      by_cases hc : s.intersect ray > 0 ∧ s.intersect ray < c
      · rw [if_pos hc] at hp
        rcases ih _ _ _ p hp with hsrc | hrange
        · cases hsrc
          simp only [List.length_cons]
          right
          omega
        · simp only [List.length_cons]
          right
          omega
      · rw [if_neg hc] at hp
        rcases ih _ _ _ p hp with hsrc | hrange
        · exact Or.inl hsrc
        · simp only [List.length_cons]
          right
          omega

/-- If the scan arrives at the tied sphere at absolute index j with a
running closest parameter already at most its hit parameter t, the
sphere at j is never recorded as the best hit. -/
lemma findHitAux_no_late_tie (ray : Ray) {t : ℝ} (j : ℕ) :
    ∀ (l : List Sphere) (i : ℕ) (c : ℝ) (b : Option (ℕ × Sphere)),
      (∀ sj, i ≤ j → l[j - i]? = some sj → sj.intersect ray = t) →
      c ≤ t →
      (∀ p : ℕ × Sphere, b = some p → p.1 ≠ j) →
      ∀ p : ℕ × Sphere, (findHitAux ray l i c b).2 = some p → p.1 ≠ j := by
  intro l
  induction l with
  | nil =>
      intro i c b _ _ hb p hp
      simp only [findHitAux] at hp
      exact hb p hp
  | cons s rest ih =>
      intro i c b hget hct hb p hp
      rcases lt_trichotomy j i with hji | hji | hij
      · rcases findHitAux_snd_src ray (s :: rest) i c b p hp with hsrc | hrange
        · exact hb p hsrc
        · omega
      · subst hji
        have hst : s.intersect ray = t := hget s le_rfl (by simp)
        simp only [findHitAux] at hp
        have hnc : ¬(s.intersect ray > 0 ∧ s.intersect ray < c) := by
          rintro ⟨_, hlt⟩
          rw [hst] at hlt
          linarith
        rw [if_neg hnc] at hp
        exact ih (j + 1) c b (fun sj hle _ => absurd hle (by omega)) hct hb p hp
      · simp only [findHitAux] at hp
        have hget2 : ∀ sj, i + 1 ≤ j → rest[j - (i + 1)]? = some sj →
            sj.intersect ray = t := by
          intro sj hle hg
          apply hget sj (by omega)
          rw [show j - i = (j - (i + 1)) + 1 from by omega]
          simpa using hg
        by_cases hc : s.intersect ray > 0 ∧ s.intersect ray < c
        · rw [if_pos hc] at hp
          refine ih (i + 1) (s.intersect ray) (some (i, s)) hget2
            (by linarith [hc.2]) ?_ p hp
          rintro q hq
          cases hq
          omega
        · rw [if_neg hc] at hp
          exact ih (i + 1) c b hget2 hct hb p hp

/-- C6 (confirmed): when two spheres at scene positions i < j give the
same positive hit parameter for a ray, the nearest-hit search never
reports the later one: the strict comparison t < closest_t means the
first sphere encountered in scene order wins the tie. -/
theorem nearest_hit_tie_first_wins (spheres : List Sphere) (ray : Ray) (i j : ℕ)
    (si sj : Sphere) (hij : i < j)
    (hi : spheres[i]? = some si) (hj : spheres[j]? = some sj)
    (heq : si.intersect ray = sj.intersect ray) (hpos : 0 < sj.intersect ray) :
    (findHit spheres ray).2.map Prod.fst ≠ some j := by
  intro hmap
  have hilen : i < spheres.length := (List.getElem?_eq_some_iff.mp hi).1
  have hjlen : j < spheres.length := (List.getElem?_eq_some_iff.mp hj).1
  obtain ⟨p, hp, hpj⟩ : ∃ p : ℕ × Sphere, (findHit spheres ray).2 = some p ∧ p.1 = j := by
    rcases o : (findHit spheres ray).2 with _ | p
    · rw [o] at hmap
      simp at hmap
    · rw [o] at hmap
      exact ⟨p, rfl, by simpa using hmap⟩
  have hlen : (spheres.take (i + 1)).length = i + 1 := by
    rw [List.length_take]
    omega
  have hfh : (findHit spheres ray).2 =
      (findHitAux ray (spheres.drop (i + 1)) (i + 1)
        (findHitAux ray (spheres.take (i + 1)) 0 1e30 none).1
        (findHitAux ray (spheres.take (i + 1)) 0 1e30 none).2).2 := by
    conv_lhs => rw [findHit, ← List.take_append_drop (i + 1) spheres]
    rw [findHitAux_append, hlen, Nat.zero_add]
  have hsi_mem : si ∈ spheres.take (i + 1) := by
    apply List.getElem?_mem (n := i)
    rw [List.getElem?_take_of_lt (by omega)]
    exact hi
  have hct : (findHitAux ray (spheres.take (i + 1)) 0 1e30 none).1 ≤ sj.intersect ray :=
    findHitAux_fst_le_of_mem ray hpos _ si hsi_mem heq 0 1e30 none
  have hbj : ∀ q : ℕ × Sphere,
      (findHitAux ray (spheres.take (i + 1)) 0 1e30 none).2 = some q → q.1 ≠ j := by
    intro q hq
    rcases findHitAux_snd_src ray _ 0 1e30 none q hq with hsrc | hrange
    · exact absurd hsrc (by simp)
    · rw [hlen] at hrange
      omega
  have hget : ∀ s2, i + 1 ≤ j → (spheres.drop (i + 1))[j - (i + 1)]? = some s2 →
      s2.intersect ray = sj.intersect ray := by
    intro s2 _ hg
    rw [List.getElem?_drop, show i + 1 + (j - (i + 1)) = j from by omega, hj] at hg
    cases hg
    rfl
  rw [hfh] at hp
  exact findHitAux_no_late_tie ray j (spheres.drop (i + 1)) (i + 1) _ _ hget hct hbj p hp hpj

lemma frontRay_eq : frontRay = ⟨⟨0, 0, 0⟩, ⟨0, 0, -1⟩⟩ := by
  unfold frontRay Ray.make
  rw [normalize_unit (by norm_num)]

lemma front_quadA : quadA frontRay = 1 := by
  rw [frontRay_eq]
  simp [quadA, Vec3.dot]

lemma front_quadB : quadB frontSphere frontRay = -10 := by
  rw [frontRay_eq]
  simp [quadB, Vec3.dot, Vec3.sub, frontSphere]
  norm_num

lemma front_quadC : quadC frontSphere frontRay = 24 := by
  rw [frontRay_eq]
  simp [quadC, Vec3.dot, Vec3.sub, frontSphere]
  norm_num

lemma front_quadDisc : quadDisc frontSphere frontRay = 4 := by
  rw [quadDisc, front_quadA, front_quadB, front_quadC]
  norm_num

lemma front_nearRoot : nearRoot frontSphere frontRay = 4 := by
  rw [nearRoot, front_quadA, front_quadB, front_quadDisc, sqrt_four]
  norm_num

lemma front_intersect : frontSphere.intersect frontRay = 4 := by
  rw [intersect_def, front_quadDisc, front_nearRoot]
  norm_num

/-- Witness for C6: two identical spheres at positions 0 and 1 are both
hit at parameter 4, and the search does not report index 1. -/
theorem nearest_hit_tie_first_wins_witness :
    (findHit [frontSphere, frontSphere] frontRay).2.map Prod.fst ≠ some 1 :=
  nearest_hit_tie_first_wins [frontSphere, frontSphere] frontRay 0 1
    frontSphere frontSphere (by norm_num) (by simp) (by simp) rfl
    (by rw [front_intersect]; norm_num)

lemma colorNonneg_add {a b : Color} (ha : colorNonneg a) (hb : colorNonneg b) :
    colorNonneg (a.add b) := by
  obtain ⟨h1, h2, h3⟩ := ha
  obtain ⟨g1, g2, g3⟩ := hb
  exact ⟨by simpa [Color.add] using add_nonneg h1 g1,
    by simpa [Color.add] using add_nonneg h2 g2,
    by simpa [Color.add] using add_nonneg h3 g3⟩

lemma colorNonneg_mulS {a : Color} {s : ℝ} (ha : colorNonneg a) (hs : 0 ≤ s) :
    colorNonneg (a.mulS s) := by
  obtain ⟨h1, h2, h3⟩ := ha
  exact ⟨by simpa [Color.mulS] using mul_nonneg h1 hs,
    by simpa [Color.mulS] using mul_nonneg h2 hs,
    by simpa [Color.mulS] using mul_nonneg h3 hs⟩

lemma colorNonneg_mulC {a b : Color} (ha : colorNonneg a) (hb : colorNonneg b) :
    colorNonneg (a.mulC b) := by
  obtain ⟨h1, h2, h3⟩ := ha
  obtain ⟨g1, g2, g3⟩ := hb
  exact ⟨by simpa [Color.mulC] using mul_nonneg h1 g1,
    by simpa [Color.mulC] using mul_nonneg h2 g2,
    by simpa [Color.mulC] using mul_nonneg h3 g3⟩

lemma colorIn01_clamp {a : Color} (ha : colorNonneg a) : colorIn01 a.clamp := by
  obtain ⟨h1, h2, h3⟩ := ha
  refine ⟨⟨?_, ?_⟩, ⟨?_, ?_⟩, ⟨?_, ?_⟩⟩ <;>
    simp [Color.clamp, le_min_iff, min_le_iff] <;> positivity

lemma colorNonneg_of_in01 {a : Color} (h : colorIn01 a) : colorNonneg a :=
  ⟨h.1.1, h.2.1.1, h.2.2.1⟩

lemma skyColor_in01 : colorIn01 skyColor := by
  refine ⟨⟨?_, ?_⟩, ⟨?_, ?_⟩, ⟨?_, ?_⟩⟩ <;> norm_num [skyColor]

lemma getD_nonneg {l : List Color} (h : ∀ c ∈ l, colorNonneg c) (n : ℕ) {d : Color}
    (hd : colorNonneg d) : colorNonneg (l.getD n d) := by
  rw [List.getD_eq_getElem?_getD]
  rcases o : l[n]? with _ | c
  · simpa using hd
  · have := h c (List.getElem?_mem o)
    simpa [o] using this

lemma sample_nonneg {t : Texture} (h : ∀ c ∈ t.data, colorNonneg c) (u v : ℝ) :
    colorNonneg (t.sample u v) := by
  unfold Texture.sample
  exact getD_nonneg h _ ⟨le_refl 0, le_refl 0, le_refl 0⟩

lemma getColor_nonneg {s : Sphere} (hc : colorNonneg s.color)
    (ht : ∀ t, s.texture = some t → ∀ c ∈ t.data, colorNonneg c) (p : Vec3) :
    colorNonneg (s.getColor p) := by
  unfold Sphere.getColor
  rcases o : s.texture with _ | tex
  · exact hc
  · exact colorNonneg_mulC (sample_nonneg (ht tex o) _ _) hc

lemma lightIntensity_nonneg (sh : Bool) (ndotl : ℝ) : 0 ≤ lightIntensity sh ndotl := by
  unfold lightIntensity
  cases sh
  · simp only [Bool.false_eq_true, if_false]
    calc (0 : ℝ) ≤ 0.1 := by norm_num
    _ ≤ max 0.1 ndotl := le_max_left _ _
  · norm_num

/-- The Fresnel reflectance stays inside [0,1] for a nonnegative
incidence cosine and a nonnegative index ratio. -/
lemma fresnel_mem_01 {c eta : ℝ} (hc : 0 ≤ c) (he : 0 ≤ eta) :
    0 ≤ fresnel c eta ∧ fresnel c eta ≤ 1 := by
  unfold fresnel
  by_cases h1 : eta * Real.sqrt (max 0 (1 - c * c)) ≥ 1
  · rw [if_pos h1]
    norm_num
  · rw [if_neg h1]
    dsimp only
    push_neg at h1
    set st := eta * Real.sqrt (max 0 (1 - c * c)) with hstd
    have hst0 : 0 ≤ st := mul_nonneg he (Real.sqrt_nonneg _)
    have hct : 0 < Real.sqrt (max 0 (1 - st * st)) := by
      apply Real.sqrt_pos.mpr
      have hlt : st * st < 1 := by nlinarith
      rw [lt_max_iff]
      right
      linarith
    set ct := Real.sqrt (max 0 (1 - st * st)) with hctd
    have hec : 0 ≤ eta * c := mul_nonneg he hc
    have hperp1 : (eta * c - ct) / (eta * c + ct) * ((eta * c - ct) / (eta * c + ct)) ≤ 1 := by
      rw [div_mul_div_comm, div_le_one (by positivity)]
      nlinarith
    have hperp0 : 0 ≤ (eta * c - ct) / (eta * c + ct) * ((eta * c - ct) / (eta * c + ct)) :=
      mul_self_nonneg _
    by_cases hden2 : c + eta * ct = 0
    · rw [hden2]
      rw [div_zero]
      constructor <;> nlinarith
    · have hden2p : 0 < c + eta * ct :=
        lt_of_le_of_ne (by positivity) (Ne.symm hden2)
      have hpar1 : (c - eta * ct) / (c + eta * ct) * ((c - eta * ct) / (c + eta * ct)) ≤ 1 := by
        rw [div_mul_div_comm, div_le_one (by positivity)]
        nlinarith [mul_nonneg he hct.le]
      have hpar0 : 0 ≤ (c - eta * ct) / (c + eta * ct) * ((c - eta * ct) / (c + eta * ct)) :=
        mul_self_nonneg _
      constructor <;> nlinarith

lemma reflectStep_nonneg {ray : Ray} {normal hit_point : Vec3} {metallic : ℝ}
    {rec : Ray → Rng → Color × Rng} {p : Color × Rng}
    (hm0 : 0 ≤ metallic) (hm1 : metallic ≤ 1)
    (hrec : ∀ r s, colorNonneg (rec r s).1) (hp : colorNonneg p.1) :
    colorNonneg (reflectStep ray normal hit_point metallic rec p).1 := by
  unfold reflectStep
  by_cases h : metallic > 0
  · rw [if_pos h]
    exact colorNonneg_add (colorNonneg_mulS hp (by linarith)) (colorNonneg_mulS (hrec _ _) hm0)
  · rw [if_neg h]
    exact hp

lemma refractStep_nonneg {ray : Ray} {normal hit_point : Vec3}
    {transparency refractive_index : ℝ} {rec : Ray → Rng → Color × Rng} {p : Color × Rng}
    (ht0 : 0 ≤ transparency) (ht1 : transparency ≤ 1) (hri : 0 ≤ refractive_index)
    (hrec : ∀ r s, colorNonneg (rec r s).1) (hp : colorNonneg p.1) :
    colorNonneg (refractStep ray normal hit_point transparency refractive_index rec p).1 := by
  unfold refractStep
  by_cases h : transparency > 0
  · rw [if_pos h]
    set cos_i := (ray.direction.smul (-1)).dot normal with hci
    have heta : 0 ≤ (if cos_i > 0 then 1 / refractive_index else refractive_index) := by
      by_cases hcn : cos_i > 0
      · rw [if_pos hcn]
        positivity
      · rw [if_neg hcn]
        exact hri
    obtain ⟨hf0, hf1⟩ := fresnel_mem_01 (abs_nonneg cos_i) heta
    by_cases h2 : (ray.direction.refract (if cos_i > 0 then normal else normal.smul (-1))
        (if cos_i > 0 then 1 / refractive_index else refractive_index)).x ≠ 0 ∨
        (ray.direction.refract (if cos_i > 0 then normal else normal.smul (-1))
        (if cos_i > 0 then 1 / refractive_index else refractive_index)).y ≠ 0 ∨
        (ray.direction.refract (if cos_i > 0 then normal else normal.smul (-1))
        (if cos_i > 0 then 1 / refractive_index else refractive_index)).z ≠ 0
    · rw [if_pos h2]
      refine colorNonneg_add (colorNonneg_mulS hp (by linarith)) (colorNonneg_mulS ?_ ht0)
      exact colorNonneg_add (colorNonneg_mulS (hrec _ _) hf0)
        (colorNonneg_mulS (hrec _ _) (by linarith))
    · rw [if_neg h2]
      exact hp
  · rw [if_neg h]
    exact hp

lemma giStep_nonneg {depth : ℕ} {metallic : ℝ} {material_color : Color}
    {normal hit_point : Vec3} {rec : Ray → Rng → Color × Rng} {p : Color × Rng}
    (hmat : colorNonneg material_color)
    (hrec : ∀ r s, colorNonneg (rec r s).1) (hp : colorNonneg p.1) :
    colorNonneg (giStep depth metallic material_color normal hit_point rec p).1 := by
  unfold giStep
  by_cases h : depth < 3 ∧ metallic < 0.5
  · rw [if_pos h]
    exact colorNonneg_add hp
      (colorNonneg_mulS (colorNonneg_mulC (hrec _ _) hmat) (by norm_num))
  · rw [if_neg h]
    exact hp

/-- Every channel the shading body returns lies in [0,1], provided the
hit sphere satisfies the data-model invariants and every recursive trace
returns nonnegative channels. -/
lemma shadeBody_in01 {spheres : List Sphere} {time : ℝ} {ray : Ray} {depth : ℕ}
    {closest_t : ℝ} {hitIdx : ℕ} {hit_sphere : Sphere}
    {rec : Ray → Rng → Color × Rng} {rng : Rng}
    (hcol : colorNonneg hit_sphere.color)
    (hm : 0 ≤ hit_sphere.metallic ∧ hit_sphere.metallic ≤ 1)
    (htr : 0 ≤ hit_sphere.transparency ∧ hit_sphere.transparency ≤ 1)
    (hri : 0 ≤ hit_sphere.refractive_index)
    (htex : ∀ t, hit_sphere.texture = some t → ∀ c ∈ t.data, colorNonneg c)
    (hrec : ∀ r s, colorNonneg (rec r s).1) :
    colorIn01 (shadeBody spheres time ray depth closest_t hitIdx hit_sphere rec rng).1 := by
  unfold shadeBody
  apply colorIn01_clamp
  apply giStep_nonneg (getColor_nonneg hcol htex _) hrec
  apply refractStep_nonneg htr.1 htr.2 hri hrec
  apply reflectStep_nonneg hm.1 hm.2 hrec
  exact colorNonneg_mulS (getColor_nonneg hcol htex _) (lightIntensity_nonneg _ _)

/-- A reported best hit either was the incoming best or is a sphere of
the scanned list. -/
lemma findHitAux_snd_mem (ray : Ray) :
    ∀ (l : List Sphere) (i : ℕ) (c : ℝ) (b : Option (ℕ × Sphere)) (p : ℕ × Sphere),
      (findHitAux ray l i c b).2 = some p → b = some p ∨ p.2 ∈ l := by
  intro l
  induction l with
  | nil =>
      intro i c b p hp
      simp only [findHitAux] at hp
      exact Or.inl hp
  | cons s rest ih =>
      intro i c b p hp
      simp only [findHitAux] at hp
      by_cases hc : s.intersect ray > 0 ∧ s.intersect ray < c
      · rw [if_pos hc] at hp
        rcases ih _ _ _ p hp with hsrc | hmem
        · cases hsrc
          exact Or.inr (List.mem_cons_self _ _)
        · exact Or.inr (List.mem_cons_of_mem _ hmem)
      · rw [if_neg hc] at hp
        rcases ih _ _ _ p hp with hsrc | hmem
        · exact Or.inl hsrc
        · exact Or.inr (List.mem_cons_of_mem _ hmem)

/-- Bounded-depth induction: every channel trace returns is in [0,1]
for a scene satisfying the data-model invariants. -/
lemma trace_fst_in01 (spheres : List Sphere) (hs : SceneOK spheres) (time : ℝ) :
    ∀ (n : ℕ) (ray : Ray) (depth : ℕ) (rng : Rng), 9 - depth ≤ n →
      colorIn01 (trace spheres time ray depth rng).1 := by
  intro n
  induction n with
  | zero =>
      intro ray depth rng hn
      rw [trace, dif_pos (by omega : depth > 8)]
      exact skyColor_in01
  | succ n ih =>
      intro ray depth rng hn
      by_cases hd : depth > 8
      · rw [trace, dif_pos hd]
        exact skyColor_in01
      · rw [trace, dif_neg hd]
        rcases hfh : findHit spheres ray with ⟨ct, hit⟩
        rcases hit with _ | ⟨hitIdx, hsph⟩
        · exact skyColor_in01
        · have hmem : hsph ∈ spheres := by
            have hsnd : (findHit spheres ray).2 = some (hitIdx, hsph) := by
              rw [hfh]
            rcases findHitAux_snd_mem ray spheres 0 1e30 none (hitIdx, hsph) hsnd with
              habs | hm
            · exact absurd habs (by simp)
            · exact hm
          obtain ⟨hcol, hm01, ht01, hri, htex⟩ := hs hsph hmem
          have hrec : ∀ (r : Ray) (s : Rng),
              colorNonneg (trace spheres time r (depth + 1) s).1 := by
            intro r s
            exact colorNonneg_of_in01 (ih r (depth + 1) s (by omega))
          exact shadeBody_in01 hcol hm01 ht01 hri htex hrec

/-- Channel bounds for the accumulation loop: after n samples every
channel of the sum lies in [0, n]. -/
lemma accumPixel_bounds (spheres : List Sphere) (hs : SceneOK spheres) (time : ℝ)
    (camera_pos : Vec3) (width height px py : ℕ) :
    ∀ (n : ℕ) (rng : Rng),
      (0 ≤ (accumPixel spheres time camera_pos width height px py n rng).1.r ∧
        (accumPixel spheres time camera_pos width height px py n rng).1.r ≤ n) ∧
      (0 ≤ (accumPixel spheres time camera_pos width height px py n rng).1.g ∧
        (accumPixel spheres time camera_pos width height px py n rng).1.g ≤ n) ∧
      (0 ≤ (accumPixel spheres time camera_pos width height px py n rng).1.b ∧
        (accumPixel spheres time camera_pos width height px py n rng).1.b ≤ n) := by
  intro n
  induction n with
  | zero =>
      intro rng
      simp [accumPixel]
  | succ n ih =>
      intro rng
      obtain ⟨⟨hr0, hr1⟩, ⟨hg0, hg1⟩, ⟨hb0, hb1⟩⟩ := ih rng
      have hsamp : colorIn01 (samplePixel spheres time camera_pos width height px py
          (accumPixel spheres time camera_pos width height px py n rng).2).1 := by
        unfold samplePixel
        exact trace_fst_in01 spheres hs time 9 _ 0 _ (by norm_num)
      obtain ⟨⟨sr0, sr1⟩, ⟨sg0, sg1⟩, ⟨sb0, sb1⟩⟩ := hsamp
      simp only [accumPixel, Color.add]
      push_cast
      refine ⟨⟨?_, ?_⟩, ⟨?_, ?_⟩, ⟨?_, ?_⟩⟩ <;> linarith

/-- C2 (confirmed): every channel of the color the recursive tracer
returns lies in [0,1] (the clamp bounds it above, and for a scene
satisfying the data-model invariants every contribution is nonnegative),
and so does every channel of the averaged per-pixel color the sampler
produces before byte quantization. -/
theorem trace_and_pixel_in01 (spheres : List Sphere) (hs : SceneOK spheres)
    (time : ℝ) (ray : Ray) (depth : ℕ) (rng : Rng) (camera_pos : Vec3)
    (width height px py spp : ℕ) (hspp : 0 < spp) (rng2 : Rng) :
    colorIn01 (trace spheres time ray depth rng).1 ∧
    colorIn01 (renderPixel spheres time camera_pos width height px py spp rng2).1 := by
  constructor
  · exact trace_fst_in01 spheres hs time (9 - depth) ray depth rng le_rfl
  · unfold renderPixel
    dsimp only
    obtain ⟨⟨hr0, hr1⟩, ⟨hg0, hg1⟩, ⟨hb0, hb1⟩⟩ :=
      accumPixel_bounds spheres hs time camera_pos width height px py spp rng2
    have hsppR : (0 : ℝ) < (spp : ℝ) := by exact_mod_cast hspp
    have hinv : 0 ≤ 1 / (spp : ℝ) := by positivity
    have hmul : (spp : ℝ) * (1 / (spp : ℝ)) = 1 := by
      field_simp
    refine ⟨⟨?_, ?_⟩, ⟨?_, ?_⟩, ⟨?_, ?_⟩⟩ <;> simp only [Color.mulS]
    · exact mul_nonneg hr0 hinv
    · calc (accumPixel spheres time camera_pos width height px py spp rng2).1.r *
          (1 / (spp : ℝ)) ≤ (spp : ℝ) * (1 / (spp : ℝ)) :=
            mul_le_mul_of_nonneg_right hr1 hinv
      _ = 1 := hmul
    · exact mul_nonneg hg0 hinv
    · calc (accumPixel spheres time camera_pos width height px py spp rng2).1.g *
          (1 / (spp : ℝ)) ≤ (spp : ℝ) * (1 / (spp : ℝ)) :=
            mul_le_mul_of_nonneg_right hg1 hinv
      _ = 1 := hmul
    · exact mul_nonneg hb0 hinv
    · calc (accumPixel spheres time camera_pos width height px py spp rng2).1.b *
          (1 / (spp : ℝ)) ≤ (spp : ℝ) * (1 / (spp : ℝ)) :=
            mul_le_mul_of_nonneg_right hb1 hinv
      _ = 1 := hmul

/-- Witness for C2 over the empty scene, a camera ray at depth 0, and a
one-sample pixel. -/
theorem trace_and_pixel_in01_witness :
    colorIn01 (trace [] 0 (Ray.make ⟨0, 0, 0⟩ ⟨0, 0, 1⟩) 0 ⟨fun _ => 0, 0⟩).1 ∧
    colorIn01 (renderPixel [] 0 ⟨0, 0, 5⟩ 2 2 0 0 1 ⟨fun _ => 0, 0⟩).1 :=
  trace_and_pixel_in01 [] (fun s h => absurd h (List.not_mem_nil s)) 0
    (Ray.make ⟨0, 0, 0⟩ ⟨0, 0, 1⟩) 0 ⟨fun _ => 0, 0⟩ ⟨0, 0, 5⟩ 2 2 0 0 1
    (by norm_num) ⟨fun _ => 0, 0⟩

end

end RayTracer
